import Mathlib

/-!
Verification of the blob-detection pipeline in `blob.py`.

The development shallowly embeds the functions of the source file:

* `localMinima` (lines 8-19): an n-dimensional array is modelled as a list of
  axis lengths `dims` together with a value function `f` on index tuples
  (values in `ℚ`, idealizing the exactly-compared machine numbers).
  `numpy.roll data s axis` reads, at index `i` along `axis`, the element at
  `(i - s) mod n`, so the two comparisons of the source are comparisons with
  the wraparound neighbors at offsets `+1` and `-1`.  The result
  `transpose (nonzero peaks)` lists surviving indices in row-major order,
  modelled by filtering the row-major enumeration `gridIndices`.  The
  in-place `&=` of lines 17-18 is only defined for boolean and integer
  dtypes: with a threshold, the candidate mask `data < threshold` is
  boolean whatever the data dtype, but with threshold `None` line 14 makes
  the mask `ones(data.shape, dtype=data.dtype)`, and for a float dtype the
  first `&=` against a boolean comparison raises `TypeError`.
  `localMinimaTyped` carries the dtype of `data` and models that aborted
  call as `none`; the untyped `localMinima` is the mask semantics shared by
  all non-error paths.
* `circleIntersection` / `sphereIntersection` (lines 37-54): numpy float
  arithmetic idealized over `ℝ` with an explicit invalidity marker:
  `Option ℝ`, where `none` stands for a non-finite result (NaN, or an
  infinity; in every expression of the source an infinite intermediate is
  fed to `arccos` or multiplied by a zero mask, so it always collapses to
  NaN before being observed).  Division by zero, `arccos` outside `[-1, 1]`
  and `sqrt` of a negative produce `none`; `none` propagates; any comparison
  against `none` is false, as for NaN.
* the pruning step of `findBlobs` (lines 56-81): `radii` has numpy shape
  `(n,)`, and `.T` on a 1-D array is the identity, so both radius arguments
  of the intersection formula broadcast along the last axis: entry `(i, j)`
  of `intersections` is the formula applied to `(radii j, radii j,
  distances i j)`, and `volumes` likewise broadcasts to `volumes j` in the
  comparison.  `triu (ones ...)` is true on and above the diagonal, i.e. at
  `(i, j)` with `i ≤ j`.  `delete` is the row-wise `any` of the condition
  matrix, and `peaks[~delete]` keeps the non-deleted rows in order.  An
  image dimensionality other than 2 or 3 leaves `intersections` and
  `volumes` unassigned and line 72 raises `UnboundLocalError`; the model
  returns `none` for that aborted call.
* `peakEnclosed` (lines 83-87): coordinates and shape in `ℤ`; the source
  computes `size ≤ p` and `size < shape - p` per axis and conjoins.
-/

namespace Blob

/-- Row-major enumeration of all index tuples of an array with axis lengths
`dims` (the order of `transpose (nonzero mask)` in numpy: first axis
slowest). -/
def gridIndices : List ℕ → List (List ℕ)
  | [] => [[]]
  | n :: rest => (List.range n).flatMap (fun i => (gridIndices rest).map (fun idx => i :: idx))

/-- Index tuple of the wraparound neighbor at offset `s` along axis `axis`:
what `numpy.roll data (-s) axis` reads at `idx`. -/
def shiftIdx (dims idx : List ℕ) (axis : ℕ) (s : ℤ) : List ℕ :=
  idx.set axis (((idx.getD axis 0 : ℤ) + s) % (dims.getD axis 0 : ℤ)).toNat

/-- One point of the combined mask of `localMinima` (lines 11-18): below the
threshold when one is given, and `≤` both wraparound neighbors along every
axis.  This is the pointwise value of the mask on the paths where the
in-place `&=` is defined (any dtype with a threshold, where the candidate
mask `data < threshold` is boolean; bitwise-and dtypes with threshold
`None`, where the 0/1 `ones` mask conjoins like a boolean one).  The
dtype-dependent `TypeError` of the `None` branch on float arrays is not a
pointwise matter and is modelled in `localMinimaTyped`. -/
def isMinimum (dims : List ℕ) (f : List ℕ → ℚ) (threshold : Option ℚ)
    (idx : List ℕ) : Bool :=
  (match threshold with
   | some t => decide (f idx < t)
   | none => true)
  && (List.range dims.length).all (fun axis =>
       decide (f idx ≤ f (shiftIdx dims idx axis 1))
       && decide (f idx ≤ f (shiftIdx dims idx axis (-1))))

/-- `localMinima data threshold` (lines 8-19) on the non-error paths: the
row-major list of index tuples where the mask survives.  See
`localMinimaTyped` for the dtype dispatch that decides whether the `None`
branch reaches this result or aborts. -/
def localMinima (dims : List ℕ) (f : List ℕ → ℚ) (threshold : Option ℚ) :
    List (List ℕ) :=
  (gridIndices dims).filter (isMinimum dims f threshold)

/-- Numpy dtype of the array handed to `localMinima`, as far as the mask
arithmetic of lines 14-18 can observe it: `bitwise_and` (the in-place
`&=`) is defined for boolean and integer dtypes and raises `TypeError`
for float dtypes. -/
inductive DType where
  | floatDt
  | intDt
  | boolDt
deriving DecidableEq

/-- `localMinima` with the dtype of `data` made explicit.  With a
threshold, line 12 builds a boolean candidate mask and the `&=` of lines
17-18 is defined whatever the data dtype.  With threshold `None`, line 14
builds `ones(data.shape, dtype=data.dtype)`: for a float dtype the first
`&=` against a boolean comparison raises `TypeError` — the abort is
modelled as `none`, and it happens inside the per-axis loop, hence only
when the array has at least one axis — while for integer and boolean
dtypes the 0/1 `ones` mask conjoins exactly like a boolean mask and the
scan returns the untyped result. -/
def localMinimaTyped (dtype : DType) (dims : List ℕ) (f : List ℕ → ℚ)
    (threshold : Option ℚ) : Option (List (List ℕ)) :=
  match threshold with
  | some t => some (localMinima dims f (some t))
  | none =>
    if dtype = DType.floatDt ∧ dims.length ≠ 0 then none
    else some (localMinima dims f none)

/-- `peakEnclosed peaks shape size` (lines 83-87) for one peak row:
`(size <= peaks).all ∧ (size < shape - peaks).all`. -/
def peakEnclosed (peak shape : List ℤ) (size : ℤ) : Bool :=
  peak.all (fun p => decide (size ≤ p))
  && (List.zipWith (fun s p => decide (size < s - p)) shape peak).all id

section FloatModel

open scoped Classical

/-- Numpy float addition on the idealized value type: `none` is any
non-finite value and propagates. -/
noncomputable def npAdd : Option ℝ → Option ℝ → Option ℝ
  | some x, some y => some (x + y)
  | _, _ => none

/-- Numpy float subtraction; `none` propagates. -/
noncomputable def npSub : Option ℝ → Option ℝ → Option ℝ
  | some x, some y => some (x - y)
  | _, _ => none

/-- Numpy float multiplication; `none` propagates (it covers `NaN * x` and
also `inf * 0`, both NaN). -/
noncomputable def npMul : Option ℝ → Option ℝ → Option ℝ
  | some x, some y => some (x * y)
  | _, _ => none

/-- Numpy float division: division by zero yields a non-finite value
(`±inf` or `0/0 = NaN`), recorded as `none`; in every use below the
non-finite quotient reaches the caller only through `arccos` or a zero
mask, both of which turn it into NaN. -/
noncomputable def npDiv : Option ℝ → Option ℝ → Option ℝ
  | some x, some y => if y = 0 then none else some (x / y)
  | _, _ => none

/-- `numpy.arccos`: NaN outside `[-1, 1]` (and on any non-finite input). -/
noncomputable def npArccos : Option ℝ → Option ℝ
  | some x => if -1 ≤ x ∧ x ≤ 1 then some (Real.arccos x) else none
  | none => none

/-- `numpy.sqrt`: NaN on negative (and non-finite) input. -/
noncomputable def npSqrt : Option ℝ → Option ℝ
  | some x => if 0 ≤ x then some (Real.sqrt x) else none
  | none => none

/-- Comparison `a > b` of a possibly-NaN value with a finite bound: false
whenever `a` is not a finite value, as for NaN in IEEE arithmetic. -/
def npGt (a : Option ℝ) (b : ℝ) : Prop :=
  ∃ x, a = some x ∧ b < x

/-- `circleIntersection r1 r2 d` (lines 47-54), transcribed term by term:
two `arccos` lens terms minus the Heron-style square-root correction,
halved. -/
noncomputable def circleIntersection (r1 r2 d : ℝ) : Option ℝ :=
  npSub
    (npAdd
      (npMul (some (r1 ^ 2))
        (npArccos (npDiv (some (d ^ 2 + r1 ^ 2 - r2 ^ 2)) (some (2 * d * r1)))))
      (npMul (some (r2 ^ 2))
        (npArccos (npDiv (some (d ^ 2 + r2 ^ 2 - r1 ^ 2)) (some (2 * d * r2))))))
    (npDiv
      (npSqrt (some ((-d + r1 + r2) * (d + r1 - r2) * (d - r1 + r2) * (d + r1 + r2))))
      (some 2))

/-- `sphereIntersection r1 r2 d` (lines 37-45), transcribed term by term:
the cap-volume expression divided by `12 d`, multiplied by the boolean
validity mask `(d < r1 + r2) ∧ (d > 0)` cast to `0 / 1`. -/
noncomputable def sphereIntersection (r1 r2 d : ℝ) : Option ℝ :=
  npMul
    (npDiv
      (some (Real.pi * (r1 + r2 - d) ^ 2 *
        (d ^ 2 + 6 * r2 * r1 + 2 * d * (r1 + r2) - 3 * (r1 - r2) ^ 2)))
      (some (12 * d)))
    (some (if d < r1 + r2 ∧ 0 < d then 1 else 0))

/-- Value of `circleIntersection r r d` for an in-domain distance
(`0 < d < 2 r`), as a total real-valued function: the same expression with
the `Option` plumbing removed, used to state the limit behaviour near
`d = 0`. -/
noncomputable def circleVal (r d : ℝ) : ℝ :=
  r ^ 2 * Real.arccos ((d ^ 2 + r ^ 2 - r ^ 2) / (2 * d * r))
  + r ^ 2 * Real.arccos ((d ^ 2 + r ^ 2 - r ^ 2) / (2 * d * r))
  - Real.sqrt ((-d + r + r) * (d + r - r) * (d - r + r) * (d + r + r)) / 2

/-- One detected peak row of `blobLOG`: the matched scale (used as radius)
followed by the spatial coordinates. -/
structure Peak where
  radius : ℝ
  pos : List ℝ
deriving Inhabited

/-- `radii i = peaks[i, 0]` (line 61). -/
noncomputable def radiusAt (peaks : List Peak) (i : ℕ) : ℝ :=
  (peaks.getD i default).radius

/-- `positions i = peaks[i, 1:]` (line 62). -/
noncomputable def posAt (peaks : List Peak) (i : ℕ) : List ℝ :=
  (peaks.getD i default).pos

/-- Euclidean distance between two position rows (line 64:
`norm (positions[:, None, :] - positions[None, :, :], axis=2)`). -/
noncomputable def distance (p q : List ℝ) : ℝ :=
  Real.sqrt (List.zipWith (fun a b => (a - b) ^ 2) p q).sum

/-- Entry `(i, j)` of the `intersections` matrix (lines 67 / 70).  `radii`
has shape `(n,)` and `radii.T` is the same 1-D array, so both radius
arguments broadcast along the last (column) axis: the entry is the formula
at `(radii j, radii j, distances i j)`. -/
noncomputable def interEntry (dim : ℕ) (peaks : List Peak) (i j : ℕ) : Option ℝ :=
  if dim = 2 then
    circleIntersection (radiusAt peaks j) (radiusAt peaks j)
      (distance (posAt peaks i) (posAt peaks j))
  else
    sphereIntersection (radiusAt peaks j) (radiusAt peaks j)
      (distance (posAt peaks i) (posAt peaks j))

/-- Reference area / volume of one blob (lines 68 / 71): `π r²` in 2-D,
`4/3 π r³` in 3-D. -/
noncomputable def refVolume (dim : ℕ) (r : ℝ) : ℝ :=
  if dim = 2 then Real.pi * r ^ 2 else 4 / 3 * Real.pi * r ^ 3

/-- Entry `(i, j)` of the deletion-condition matrix (lines 72-77): the
overlap test against `volumes j * max_overlap` (the `(n,)`-shaped `volumes`
also broadcasts along columns), conjoined with `radii i < radii j` or the
upper-triangular tie-break `radii i = radii j ∧ i ≤ j` (`triu` keeps the
diagonal and above). -/
def deleteCond (dim : ℕ) (maxOverlap : ℝ) (peaks : List Peak) (i j : ℕ) : Prop :=
  npGt (interEntry dim peaks i j) (refVolume dim (radiusAt peaks j) * maxOverlap)
  ∧ (radiusAt peaks i < radiusAt peaks j
     ∨ (radiusAt peaks i = radiusAt peaks j ∧ i ≤ j))

/-- `delete i` (line 78): row-wise `any` of the condition matrix. -/
def deleteFlag (dim : ℕ) (maxOverlap : ℝ) (peaks : List Peak) (i : ℕ) : Prop :=
  ∃ j, j < peaks.length ∧ deleteCond dim maxOverlap peaks i j

/-- Indices of the rows kept by the boolean mask selection
`peaks[~delete]` (line 81), in their original order. -/
noncomputable def survivors (dim : ℕ) (maxOverlap : ℝ) (peaks : List Peak) : List ℕ :=
  (List.range peaks.length).filter (fun i => decide (¬ deleteFlag dim maxOverlap peaks i))

/-- The overlap-pruning step of `findBlobs` (lines 64-81), applied to the
peak rows produced by `blobLOG`.  `dim` is `positions.shape[1]`, the
spatial dimensionality of the image.  When `dim` is neither 2 nor 3,
neither branch of lines 66-71 assigns `intersections` / `volumes` and line
72 raises `UnboundLocalError`; the aborted call is modelled as `none`. -/
noncomputable def pruneStep (dim : ℕ) (maxOverlap : ℝ) (peaks : List Peak) :
    Option (List Peak) :=
  if dim = 2 ∨ dim = 3 then
    some ((survivors dim maxOverlap peaks).map (fun i => peaks.getD i default))
  else
    none

end FloatModel

/-- C5: `peakEnclosed` is true for a peak iff every coordinate is at least
`size` and strictly less than `shape[axis] - size`; the low boundary
(coordinate exactly `size`) is included, the high boundary (coordinate
exactly `shape[axis] - size`) is excluded. -/
theorem peakEnclosed_iff (peak shape : List ℤ) (size : ℤ)
    (h : peak.length = shape.length) :
    peakEnclosed peak shape size = true ↔
      ∀ i, ∀ hi : i < peak.length,
        size ≤ peak.get ⟨i, hi⟩ ∧
        peak.get ⟨i, hi⟩ < shape.get ⟨i, by omega⟩ - size := by
  induction peak generalizing shape with
  | nil =>
    constructor
    · intro _ i hi
      exact absurd hi (Nat.not_lt_zero i)
    · intro _
      simp [peakEnclosed]
  | cons p ps ih =>
    cases shape with
    | nil => simp at h
    | cons s ss =>
      have h' : ps.length = ss.length := by simpa using h
      have hun : peakEnclosed (p :: ps) (s :: ss) size = true ↔
          ((size ≤ p ∧ size < s - p) ∧ peakEnclosed ps ss size = true) := by
        simp [peakEnclosed, Bool.and_eq_true, decide_eq_true_iff]
        tauto
      rw [hun]
      constructor
      · rintro ⟨⟨h1, h2⟩, hrest⟩ i hi
        match i with
        | 0 =>
          refine ⟨h1, ?_⟩
          simpa using by omega
        | Nat.succ n =>
          have hn : n < ps.length := by simpa using hi
          have := (ih ss h').mp hrest n hn
          simpa using this
      · intro hall
        refine ⟨⟨?_, ?_⟩, ?_⟩
        · simpa using (hall 0 (by simp)).1
        · have h2 := (hall 0 (by simp)).2
          simp at h2
          omega
        · refine (ih ss h').mpr ?_
          intro n hn
          have := hall (n + 1) (by simpa using hn)
          simpa using this

/-- C5 witness: the peak `[1, 5]` inside shape `[3, 10]` with margin 1 is
enclosed. -/
theorem peakEnclosed_iff_witness : peakEnclosed [1, 5] [3, 10] 1 = true :=
  (peakEnclosed_iff [1, 5] [3, 10] 1 (by decide)).mpr (by decide)

/-- C6: on a constant-valued array whose value is below the threshold,
`localMinima` returns every index of the array (the non-strict wraparound
comparisons hold everywhere on a plateau). -/
theorem localMinima_const_all (dims : List ℕ) (c t : ℚ) (h : c < t) :
    localMinima dims (fun _ => c) (some t) = gridIndices dims := by
  unfold localMinima
  apply List.filter_eq_self.mpr
  intro idx _
  simp [isMinimum, h]

/-- C6 witness: a constant 2 x 2 array of zeros with threshold 1 yields all
four indices. -/
theorem localMinima_const_all_witness :
    localMinima [2, 2] (fun _ => 0) (some 1) = gridIndices [2, 2] :=
  localMinima_const_all [2, 2] 0 1 (by norm_num)

/-- Mask semantics of the `None` branch on the paths where the `&=` is
defined: every point is a candidate, so the combined mask keeps exactly
the points that are at most both wraparound neighbors along every axis,
the same mask as under any threshold strictly above every array value. -/
theorem localMinima_none_mask (dims : List ℕ) (f : List ℕ → ℚ) (t : ℚ)
    (h : ∀ idx ∈ gridIndices dims, f idx < t) :
    localMinima dims f none = localMinima dims f (some t) ∧
    ∀ idx, idx ∈ localMinima dims f none ↔
      (idx ∈ gridIndices dims ∧ ∀ axis, axis < dims.length →
        f idx ≤ f (shiftIdx dims idx axis 1) ∧ f idx ≤ f (shiftIdx dims idx axis (-1))) := by
  constructor
  · unfold localMinima
    apply List.filter_congr
    intro idx hidx
    simp [isMinimum, h idx hidx]
  · intro idx
    unfold localMinima
    rw [List.mem_filter]
    simp only [isMinimum, Bool.true_and, List.all_eq_true, List.mem_range,
      Bool.and_eq_true, decide_eq_true_iff]

/-- C7 counterexample: on the float-dtype 1-D array `[0, 1, 2]` the
threshold-`None` call aborts with `TypeError` (line 14 builds a float
`ones` mask and line 17's in-place `&=` with a boolean comparison is
undefined on floats), while the same array with threshold 5 (above every
value) returns the index list `[[0]]` — so with `None` the call does not
return the neighbor-minima indices, and is not equivalent to a
high-threshold call, refuting the claim's quantification over every input
array. -/
theorem none_threshold_float_counterexample :
    localMinimaTyped DType.floatDt [3] (fun idx => ((idx.headD 0 : ℕ) : ℚ)) none
      = none ∧
    localMinimaTyped DType.floatDt [3] (fun idx => ((idx.headD 0 : ℕ) : ℚ)) (some 5)
      = some [[0]] := by
  constructor
  · rfl
  · show some (localMinima [3] (fun idx => ((idx.headD 0 : ℕ) : ℚ)) (some 5)) = some [[0]]
    decide

/-- C7 (amended): for every input array of a bitwise-and dtype (integer or
boolean), threshold `None` treats all points as candidates and the scan
returns exactly the indices that are at most both wraparound neighbors
along every axis, the same result as under any threshold strictly above
every array value; for a float-dtype array with at least one axis the
`None` branch instead aborts with a `TypeError` from the in-place `&=`. -/
theorem localMinima_no_threshold_typed (dtype : DType) (dims : List ℕ)
    (f : List ℕ → ℚ) (t : ℚ) (hdt : dtype ≠ DType.floatDt)
    (h : ∀ idx ∈ gridIndices dims, f idx < t) :
    localMinimaTyped dtype dims f none = some (localMinima dims f none) ∧
    localMinimaTyped dtype dims f none = localMinimaTyped dtype dims f (some t) ∧
    (∀ idx, idx ∈ localMinima dims f none ↔
      (idx ∈ gridIndices dims ∧ ∀ axis, axis < dims.length →
        f idx ≤ f (shiftIdx dims idx axis 1) ∧ f idx ≤ f (shiftIdx dims idx axis (-1)))) ∧
    (∀ gdims : List ℕ, ∀ g : List ℕ → ℚ, gdims.length ≠ 0 →
      localMinimaTyped DType.floatDt gdims g none = none) := by
  have hbase := localMinima_none_mask dims f t h
  have hnone : localMinimaTyped dtype dims f none = some (localMinima dims f none) := by
    unfold localMinimaTyped
    rw [if_neg]
    rintro ⟨hfl, -⟩
    exact hdt hfl
  refine ⟨hnone, ?_, hbase.2, ?_⟩
  · rw [hnone]
    show some (localMinima dims f none) = some (localMinima dims f (some t))
    exact congrArg some hbase.1
  · intro gdims g hg
    unfold localMinimaTyped
    rw [if_pos ⟨rfl, hg⟩]

/-- C7 witness: on the integer-dtype 1-D array `[0, 1, 2]` (all values
below 5), the `None`-threshold scan succeeds and agrees with the
threshold-5 scan. -/
theorem localMinima_no_threshold_typed_witness :
    localMinimaTyped DType.intDt [3] (fun idx => ((idx.headD 0 : ℕ) : ℚ)) none =
      localMinimaTyped DType.intDt [3] (fun idx => ((idx.headD 0 : ℕ) : ℚ)) (some 5) :=
  (localMinima_no_threshold_typed DType.intDt [3]
    (fun idx => ((idx.headD 0 : ℕ) : ℚ)) 5 (by decide) (by decide)).2.1

open scoped Classical

theorem npMul_none_right (a : Option ℝ) : npMul a none = none := by
  cases a <;> rfl

theorem npMul_none_left (a : Option ℝ) : npMul none a = none := by
  cases a <;> rfl

theorem npAdd_none_left (a : Option ℝ) : npAdd none a = none := by
  cases a <;> rfl

theorem npAdd_none_right (a : Option ℝ) : npAdd a none = none := by
  cases a <;> rfl

theorem npSub_none_left (a : Option ℝ) : npSub none a = none := by
  cases a <;> rfl

theorem npArccos_none : npArccos none = none := rfl

theorem npArccos_some (x : ℝ) (h : -1 ≤ x ∧ x ≤ 1) :
    npArccos (some x) = some (Real.arccos x) := by
  simp [npArccos, h]

theorem npSqrt_some (x : ℝ) (h : 0 ≤ x) : npSqrt (some x) = some (Real.sqrt x) := by
  simp [npSqrt, h]

theorem npAdd_some (x y : ℝ) : npAdd (some x) (some y) = some (x + y) := rfl

theorem npSub_some (x y : ℝ) : npSub (some x) (some y) = some (x - y) := rfl

theorem npMul_some (x y : ℝ) : npMul (some x) (some y) = some (x * y) := rfl

theorem npDiv_some_zero (x : ℝ) : npDiv (some x) (some 0) = none := by
  simp [npDiv]

theorem npDiv_some (x y : ℝ) (h : y ≠ 0) : npDiv (some x) (some y) = some (x / y) := by
  simp [npDiv, h]

theorem not_npGt_none (b : ℝ) : ¬ npGt none b := by
  rintro ⟨x, hx, -⟩
  cases hx

/-- `circleIntersection` at distance 0: the first `arccos` argument divides
by `2 * 0 * r1 = 0`, the non-finite quotient makes `arccos` NaN, and the
NaN propagates through the whole expression. -/
theorem circleIntersection_d0 (r1 r2 : ℝ) : circleIntersection r1 r2 0 = none := by
  unfold circleIntersection
  have h1 : (2 : ℝ) * 0 * r1 = 0 := by ring
  rw [h1, npDiv_some_zero]
  rw [npArccos_none, npMul_none_right, npAdd_none_left, npSub_none_left]

/-- `sphereIntersection` at distance 0: the cap formula divides by
`12 * 0 = 0`, and multiplying the non-finite quotient by the zero mask
gives NaN (`inf * 0` or `NaN * 0`), not 0. -/
theorem sphereIntersection_d0 (r1 r2 : ℝ) : sphereIntersection r1 r2 0 = none := by
  unfold sphereIntersection
  have h1 : (12 : ℝ) * 0 = 0 := by ring
  rw [h1, npDiv_some_zero, npMul_none_left]

/-- The self-pair distance is 0. -/
theorem distance_self (p : List ℝ) : distance p p = 0 := by
  unfold distance
  have h : (List.zipWith (fun a b => (a - b) ^ 2) p p).sum = 0 := by
    induction p with
    | nil => simp
    | cons a t ih => simp [ih]
  rw [h, Real.sqrt_zero]

/-- The diagonal entry of the intersection matrix is NaN for both the 2-D
and the 3-D formula: the pairwise distance is 0 there. -/
theorem interEntry_self (dim : ℕ) (peaks : List Peak) (i : ℕ) :
    interEntry dim peaks i i = none := by
  unfold interEntry
  rw [distance_self]
  split
  · exact circleIntersection_d0 _ _
  · exact sphereIntersection_d0 _ _

/-- The deletion condition never fires on a diagonal pair: the comparison
of the NaN intersection against the overlap bound is false. -/
theorem deleteCond_self_false (dim : ℕ) (mo : ℝ) (peaks : List Peak) (i : ℕ) :
    ¬ deleteCond dim mo peaks i i := by
  rintro ⟨⟨x, hx, -⟩, -⟩
  rw [interEntry_self] at hx
  cases hx

/-- A single detected peak is never pruned: its only pair is its self-pair. -/
theorem pruneStep_singleton (dim : ℕ) (mo : ℝ) (b : Peak)
    (hdim : dim = 2 ∨ dim = 3) : pruneStep dim mo [b] = some [b] := by
  have hflag : ¬ deleteFlag dim mo [b] 0 := by
    rintro ⟨j, hj, hcond⟩
    simp only [List.length_singleton, Nat.lt_one_iff] at hj
    subst hj
    exact deleteCond_self_false dim mo [b] 0 hcond
  unfold pruneStep survivors
  rw [if_pos hdim]
  have hd2 : decide (¬ deleteFlag dim mo [b] 0) = true := decide_eq_true hflag
  have hr1 : List.range 1 = [0] := rfl
  simp only [List.length_singleton, hr1, List.filter_cons, List.filter_nil, hd2,
    if_true, List.map_cons, List.map_nil, List.getD]
  simp

/-- C3 counterexample: at `d = 0` (which satisfies the claimed domain
`d ≤ 0`) the masked product is `(formula / 0) * 0`, i.e. NaN, not the
claimed exact 0. -/
theorem sphere_mask_nan_counterexample : sphereIntersection 2 3 0 = none :=
  sphereIntersection_d0 2 3

/-- C3 (amended): for every nonzero distance outside the valid domain
(`d ≥ r1 + r2` or `d < 0`, and also `d ≥ r1 + r2` with negative radii
summing below a nonzero `d`), the validity mask zeroes the formula and
`sphereIntersection` returns exactly 0; only at `d = 0` does the division
by zero make the masked product NaN instead. -/
theorem sphere_mask_zero (r1 r2 d : ℝ) (hd : d ≠ 0)
    (h : r1 + r2 ≤ d ∨ d ≤ 0) : sphereIntersection r1 r2 d = some 0 := by
  unfold sphereIntersection
  have h12 : (12 : ℝ) * d ≠ 0 := mul_ne_zero (by norm_num) hd
  rw [npDiv_some _ _ h12]
  have hmask : ¬ (d < r1 + r2 ∧ 0 < d) := by
    rintro ⟨h1, h2⟩
    rcases h with h3 | h3 <;> linarith
  rw [if_neg hmask, npMul_some, mul_zero]

/-- C3 witness: two unit spheres 3 apart do not intersect and the masked
formula returns exactly 0. -/
theorem sphere_mask_zero_witness : sphereIntersection 1 1 3 = some 0 :=
  sphere_mask_zero 1 1 3 (by norm_num) (Or.inl (by norm_num))

/-- C2 counterexample: at `r = 1`, `d = 0` both formulas are NaN (circle:
division by zero inside the `arccos` argument; sphere: masked division by
zero), not the claimed reference area `π` and volume `4π/3`. -/
theorem concentric_full_overlap_counterexample :
    circleIntersection 1 1 0 = none ∧ sphereIntersection 1 1 0 = none :=
  ⟨circleIntersection_d0 1 1, sphereIntersection_d0 1 1⟩

/-- C2 (amended): at exactly `d = 0` both `circleIntersection r r 0` and
`sphereIntersection r r 0` are invalid (NaN) rather than the reference
area / volume; `circleIntersection r r d` is a valid value for every
`0 < d < 2 r`, and that value tends to the full reference area `π r²` as
`d` tends to 0 from the right. -/
theorem concentric_overlap_limit (r : ℝ) (hr : 0 < r) :
    circleIntersection r r 0 = none ∧ sphereIntersection r r 0 = none ∧
    (∀ d, 0 < d → d < 2 * r → circleIntersection r r d = some (circleVal r d)) ∧
    Filter.Tendsto (circleVal r) (nhdsWithin 0 (Set.Ioi 0))
      (nhds (Real.pi * r ^ 2)) := by
  have hrne : r ≠ 0 := ne_of_gt hr
  refine ⟨circleIntersection_d0 r r, sphereIntersection_d0 r r, ?_, ?_⟩
  · intro d hd0 hd2
    have hdne : d ≠ 0 := ne_of_gt hd0
    have h2dr : (2 : ℝ) * d * r ≠ 0 := by positivity
    have harg : (d ^ 2 + r ^ 2 - r ^ 2) / (2 * d * r) = d / (2 * r) := by
      field_simp
      ring
    have hbound : -1 ≤ (d ^ 2 + r ^ 2 - r ^ 2) / (2 * d * r) ∧
        (d ^ 2 + r ^ 2 - r ^ 2) / (2 * d * r) ≤ 1 := by
      rw [harg]
      constructor
      · have hpos : 0 < d / (2 * r) := by positivity
        linarith
      · rw [div_le_one (by positivity)]
        linarith
    have hA : 0 ≤ (-d + r + r) * (d + r - r) * (d - r + r) * (d + r + r) := by
      have f1 : 0 < -d + r + r := by linarith
      have f2 : 0 < d + r - r := by linarith
      have f3 : 0 < d - r + r := by linarith
      have f4 : 0 < d + r + r := by linarith
      exact le_of_lt (mul_pos (mul_pos (mul_pos f1 f2) f3) f4)
    unfold circleIntersection
    rw [npDiv_some _ _ h2dr, npArccos_some _ hbound, npMul_some,
      npAdd_some, npSqrt_some _ hA, npDiv_some _ _ (by norm_num : (2 : ℝ) ≠ 0),
      npSub_some]
    unfold circleVal
    rfl
  · set g : ℝ → ℝ := fun d =>
      r ^ 2 * Real.arccos (d / (2 * r)) + r ^ 2 * Real.arccos (d / (2 * r))
      - Real.sqrt ((-d + r + r) * (d + r - r) * (d - r + r) * (d + r + r)) / 2
      with hg
    have hgc : Continuous g := by
      rw [hg]
      have harc : Continuous fun d : ℝ => Real.arccos (d / (2 * r)) :=
        Real.continuous_arccos.comp (continuous_id.div_const _)
      have hsq : Continuous fun d : ℝ =>
          Real.sqrt ((-d + r + r) * (d + r - r) * (d - r + r) * (d + r + r)) := by
        apply Real.continuous_sqrt.comp
        continuity
      exact ((continuous_const.mul harc).add (continuous_const.mul harc)).sub
        (hsq.div_const _)
    have hg0 : g 0 = Real.pi * r ^ 2 := by
      rw [hg]
      simp [Real.arccos_zero]
      ring
    have hlim : Filter.Tendsto g (nhdsWithin 0 (Set.Ioi 0))
        (nhds (Real.pi * r ^ 2)) := by
      rw [← hg0]
      exact (hgc.tendsto 0).mono_left nhdsWithin_le_nhds
    have hev : ∀ d ∈ Set.Ioi (0 : ℝ), g d = circleVal r d := by
      intro d hd
      have hdne : d ≠ 0 := ne_of_gt hd
      have harg : (d ^ 2 + r ^ 2 - r ^ 2) / (2 * d * r) = d / (2 * r) := by
        field_simp
        ring
      unfold circleVal
      rw [harg, hg]
    exact Filter.Tendsto.congr'
      (Filter.eventuallyEq_of_mem self_mem_nhdsWithin hev) hlim

/-- C2 witness: at `r = 1`, `d = 1/2` the circle formula is in-domain and
evaluates to the closed-form lens value. -/
theorem concentric_overlap_limit_witness :
    circleIntersection 1 1 (1 / 2) = some (circleVal 1 (1 / 2)) :=
  (concentric_overlap_limit 1 (by norm_num)).2.2.1 (1 / 2) (by norm_num) (by norm_num)

/-- C10 counterexample: on a self-pair the sphere formula is not masked to
a non-positive value: `sphereIntersection r r 0` is NaN (`(formula / 0) *
0`), which is no real value at all. -/
theorem selfpair_nan_counterexample : sphereIntersection 5 5 0 = none :=
  sphereIntersection_d0 5 5

/-- C10 (amended): a blob is never deleted on account of its own self-pair:
at the diagonal pair the distance is 0, both intersection formulas yield an
invalid (NaN) value there, its comparison against the overlap bound fails,
so the deletion condition at `(i, i)` is false; in particular a single
detected peak is returned unpruned. -/
theorem selfpair_never_deletes (dim : ℕ) (mo : ℝ) (peaks : List Peak) (i : ℕ)
    (b : Peak) (hdim : dim = 2 ∨ dim = 3) :
    (deleteCond dim mo peaks i i ↔ False) ∧ pruneStep dim mo [b] = some [b] :=
  ⟨iff_false_intro (deleteCond_self_false dim mo peaks i),
    pruneStep_singleton dim mo b hdim⟩

/-- C10 witness: concrete 3-D instance with one peak of radius 2. -/
theorem selfpair_never_deletes_witness :
    (deleteCond 3 (1 / 20) [Peak.mk 2 [1, 2, 3]] 0 0 ↔ False) ∧
    pruneStep 3 (1 / 20) [Peak.mk 2 [1, 2, 3]] = some [Peak.mk 2 [1, 2, 3]] :=
  selfpair_never_deletes 3 (1 / 20) [Peak.mk 2 [1, 2, 3]] 0 (Peak.mk 2 [1, 2, 3])
    (Or.inr rfl)

/-- Concrete overlap fact for the tied pair used in the C1 analysis: two
radius-1 spheres at distance 1 intersect (per the code formula) in
`11 π / 12`, which exceeds `max_overlap = 1/20` of the reference volume
`4 π / 3`. -/
theorem pair_overlap_fact :
    npGt (interEntry 3 [Peak.mk 1 [0, 0, 0], Peak.mk 1 [1, 0, 0]] 0 1)
      (refVolume 3 (radiusAt [Peak.mk 1 [0, 0, 0], Peak.mk 1 [1, 0, 0]] 1) * (1 / 20)) := by
  have hr1 : radiusAt [Peak.mk 1 [0, 0, 0], Peak.mk 1 [1, 0, 0]] 1 = 1 := rfl
  have hd : distance (posAt [Peak.mk 1 [0, 0, 0], Peak.mk 1 [1, 0, 0]] 0)
      (posAt [Peak.mk 1 [0, 0, 0], Peak.mk 1 [1, 0, 0]] 1) = 1 := by
    show distance [(0 : ℝ), 0, 0] [(1 : ℝ), 0, 0] = 1
    unfold distance
    have hsum : (List.zipWith (fun a b => (a - b) ^ 2) [(0 : ℝ), 0, 0] [(1 : ℝ), 0, 0]).sum = 1 := by
      norm_num [List.zipWith, List.sum_cons, List.sum_nil]
    rw [hsum, Real.sqrt_one]
  unfold interEntry
  rw [if_neg (by norm_num : ¬ (3 = 2)), hr1, hd]
  have hs : sphereIntersection 1 1 1 =
      some (Real.pi * (1 + 1 - 1) ^ 2 *
        ((1 : ℝ) ^ 2 + 6 * 1 * 1 + 2 * 1 * (1 + 1) - 3 * (1 - 1) ^ 2) / (12 * 1) * 1) := by
    unfold sphereIntersection
    rw [npDiv_some _ _ (by norm_num : (12 : ℝ) * 1 ≠ 0),
      if_pos (by norm_num : (1 : ℝ) < 1 + 1 ∧ (0 : ℝ) < 1), npMul_some]
  rw [hs]
  refine ⟨_, rfl, ?_⟩
  unfold refVolume
  rw [if_neg (by norm_num : ¬ (3 = 2))]
  nlinarith [Real.pi_pos]

/-- C1 counterexample: two blobs with equal radius 1 at distance 1 in 3-D,
`max_overlap = 1/20`.  The deletion mask fires at the upper-triangular pair
`(0, 1)` (the diagonal-inclusive `triu` is true there), so the blob with
the SMALLER index 0 is discarded and the larger-index blob 1 is retained —
the opposite of the claimed tie-break direction. -/
theorem tiebreak_discards_lower_counterexample :
    deleteFlag 3 (1 / 20) [Peak.mk 1 [0, 0, 0], Peak.mk 1 [1, 0, 0]] 0 ∧
    ¬ deleteFlag 3 (1 / 20) [Peak.mk 1 [0, 0, 0], Peak.mk 1 [1, 0, 0]] 1 ∧
    pruneStep 3 (1 / 20) [Peak.mk 1 [0, 0, 0], Peak.mk 1 [1, 0, 0]] =
      some [Peak.mk 1 [1, 0, 0]] := by
  have hflag0 : deleteFlag 3 (1 / 20) [Peak.mk 1 [0, 0, 0], Peak.mk 1 [1, 0, 0]] 0 :=
    ⟨1, by simp, ⟨pair_overlap_fact, Or.inr ⟨rfl, by norm_num⟩⟩⟩
  have hflag1 : ¬ deleteFlag 3 (1 / 20) [Peak.mk 1 [0, 0, 0], Peak.mk 1 [1, 0, 0]] 1 := by
    rintro ⟨j, hj, hcond⟩
    simp only [List.length_cons, List.length_nil] at hj
    have hj01 : j = 0 ∨ j = 1 := by omega
    rcases hj01 with hj0 | hj1
    · subst hj0
      obtain ⟨-, hcase⟩ := hcond
      rcases hcase with hlt | ⟨-, hle⟩
      · have hlt1 : (1 : ℝ) < 1 := hlt
        exact lt_irrefl 1 hlt1
      · omega
    · subst hj1
      exact deleteCond_self_false _ _ _ _ hcond
  refine ⟨hflag0, hflag1, ?_⟩
  unfold pruneStep survivors
  rw [if_pos (Or.inr rfl)]
  have hd0 : decide (¬ deleteFlag 3 (1 / 20) [Peak.mk 1 [0, 0, 0], Peak.mk 1 [1, 0, 0]] 0)
      = false := decide_eq_false (not_not_intro hflag0)
  have hd1 : decide (¬ deleteFlag 3 (1 / 20) [Peak.mk 1 [0, 0, 0], Peak.mk 1 [1, 0, 0]] 1)
      = true := decide_eq_true hflag1
  rw [show List.range (List.length [Peak.mk 1 [0, 0, 0], Peak.mk 1 [1, 0, 0]]) = [0, 1]
    from rfl]
  have hstep : List.filter
      (fun i => decide (¬ deleteFlag 3 (1 / 20) [Peak.mk 1 [0, 0, 0], Peak.mk 1 [1, 0, 0]] i))
      [0, 1] = [1] := by
    simp only [List.filter_cons, List.filter_nil]
    rw [hd0, hd1]
    simp
  rw [hstep]
  rfl

/-- C1 (amended): for every pair `i < j` with exactly equal radii whose
pairwise intersection exceeds `max_overlap` times the reference volume,
the pair clause marks exactly one of the two, namely the LOWER-index blob
`i` (the `triu` tie-break is true at `(i, j)` and false at `(j, i)`); the
higher-index blob `j` is never deleted on account of this pair. -/
theorem tiebreak_discards_lower_index (dim : ℕ) (mo : ℝ) (peaks : List Peak)
    (i j : ℕ) (hij : i < j) (hj : j < peaks.length)
    (hr : radiusAt peaks i = radiusAt peaks j)
    (hover : npGt (interEntry dim peaks i j) (refVolume dim (radiusAt peaks j) * mo)) :
    deleteCond dim mo peaks i j ∧ ¬ deleteCond dim mo peaks j i ∧
    deleteFlag dim mo peaks i := by
  have hcij : deleteCond dim mo peaks i j := ⟨hover, Or.inr ⟨hr, le_of_lt hij⟩⟩
  refine ⟨hcij, ?_, ⟨j, hj, hcij⟩⟩
  rintro ⟨-, hcase⟩
  rcases hcase with hlt | ⟨-, hle⟩
  · rw [hr] at hlt
    exact lt_irrefl _ hlt
  · omega

/-- C1 witness: the amended tie-break at the concrete tied pair. -/
theorem tiebreak_discards_lower_index_witness :
    deleteCond 3 (1 / 20) [Peak.mk 1 [0, 0, 0], Peak.mk 1 [1, 0, 0]] 0 1 ∧
    ¬ deleteCond 3 (1 / 20) [Peak.mk 1 [0, 0, 0], Peak.mk 1 [1, 0, 0]] 1 0 ∧
    deleteFlag 3 (1 / 20) [Peak.mk 1 [0, 0, 0], Peak.mk 1 [1, 0, 0]] 0 :=
  tiebreak_discards_lower_index 3 (1 / 20)
    [Peak.mk 1 [0, 0, 0], Peak.mk 1 [1, 0, 0]] 0 1 (by norm_num) (by simp)
    rfl pair_overlap_fact

/-- C8: an image dimensionality other than 2 or 3 leaves the intersection
branch of lines 66-71 unassigned and line 72 aborts the call with an
error; no (possibly shortened) blob list is returned. -/
theorem pruneStep_bad_dim_error (dim : ℕ) (mo : ℝ) (peaks : List Peak)
    (h2 : dim ≠ 2) (h3 : dim ≠ 3) : pruneStep dim mo peaks = none := by
  unfold pruneStep
  rw [if_neg]
  rintro (h | h)
  · exact h2 h
  · exact h3 h

/-- C8 witness: a 4-D image aborts the pruning stage. -/
theorem pruneStep_bad_dim_error_witness : pruneStep 4 (1 / 20) [] = none :=
  pruneStep_bad_dim_error 4 (1 / 20) [] (by norm_num) (by norm_num)

theorem filterIdx_map_sublist (p : ℕ → Bool) (l : List Peak) (d : Peak) :
    (((List.range l.length).filter p).map (fun i => l.getD i d)).Sublist l := by
  induction l using List.reverseRecOn with
  | nil => simp
  | append_singleton l a ih =>
    rw [List.length_append, List.length_singleton, List.range_succ,
      List.filter_append, List.map_append]
    apply List.Sublist.append
    · have hmap : (((List.range l.length).filter p).map fun i => (l ++ [a]).getD i d)
          = ((List.range l.length).filter p).map (fun i => l.getD i d) := by
        apply List.map_congr_left
        intro i hi
        exact List.getD_append l [a] d i (List.mem_range.mp (List.mem_of_mem_filter hi))
      rw [hmap]
      exact ih
    · cases hp : p l.length with
      | true =>
        have hval : (l ++ [a]).getD l.length d = a := by
          rw [List.getD_append_right l [a] d l.length (le_refl _)]
          simp
        simp [List.filter_cons, hp, hval]
      | false =>
        simp [List.filter_cons, hp]

theorem survivors_sublist (dim : ℕ) (mo : ℝ) (peaks : List Peak) :
    ((survivors dim mo peaks).map (fun i => peaks.getD i default)).Sublist peaks := by
  unfold survivors
  exact filterIdx_map_sublist _ peaks default

theorem mem_survivors (dim : ℕ) (mo : ℝ) (peaks : List Peak) (i : ℕ) :
    i ∈ survivors dim mo peaks ↔ i < peaks.length ∧ ¬ deleteFlag dim mo peaks i := by
  unfold survivors
  simp only [List.mem_filter, List.mem_range, decide_eq_true_eq]

theorem survivors_pairwise (dim : ℕ) (mo : ℝ) (peaks : List Peak) :
    (survivors dim mo peaks).Pairwise (· < ·) := by
  unfold survivors
  exact List.Pairwise.filter _ (List.sorted_lt_range peaks.length)

theorem map_getD_range (l : List Peak) (d : Peak) :
    (List.range l.length).map (fun i => l.getD i d) = l := by
  apply List.ext_getElem
  · simp
  · intro i h1 h2
    simp only [List.getElem_map, List.getElem_range]
    exact List.getD_eq_getElem l d h2

theorem out_getD_entry (dim : ℕ) (mo : ℝ) (peaks : List Peak) (k : ℕ)
    (hk : k < (survivors dim mo peaks).length) :
    ((survivors dim mo peaks).map (fun i => peaks.getD i default)).getD k default
      = peaks.getD ((survivors dim mo peaks).get ⟨k, hk⟩) default := by
  rw [List.getD_eq_getElem _ _ (by simpa using hk), List.getElem_map,
    List.get_eq_getElem]

theorem survivors_get_le_iff (dim : ℕ) (mo : ℝ) (peaks : List Peak) (k l : ℕ)
    (hk : k < (survivors dim mo peaks).length)
    (hl : l < (survivors dim mo peaks).length) :
    k ≤ l ↔ (survivors dim mo peaks).get ⟨k, hk⟩ ≤ (survivors dim mo peaks).get ⟨l, hl⟩ := by
  have hp := List.pairwise_iff_get.mp (survivors_pairwise dim mo peaks)
  constructor
  · intro hkl
    rcases Nat.eq_or_lt_of_le hkl with heq | hlt
    · subst heq
      exact le_refl _
    · exact le_of_lt (hp ⟨k, hk⟩ ⟨l, hl⟩ hlt)
  · intro hgle
    by_contra hnk
    push_neg at hnk
    have := hp ⟨l, hl⟩ ⟨k, hk⟩ hnk
    omega

/-- Row congruence between a pruned list and the original list: the
deletion condition at renumbered indices `(k, l)` coincides with the
condition at the original indices, because it depends only on the two
radii, the two positions, and the order of the indices, all of which the
order-preserving selection keeps. -/
theorem deleteCond_map (dim : ℕ) (mo : ℝ) (peaks : List Peak) (k l : ℕ)
    (hk : k < (survivors dim mo peaks).length)
    (hl : l < (survivors dim mo peaks).length) :
    deleteCond dim mo ((survivors dim mo peaks).map (fun i => peaks.getD i default)) k l ↔
    deleteCond dim mo peaks ((survivors dim mo peaks).get ⟨k, hk⟩)
      ((survivors dim mo peaks).get ⟨l, hl⟩) := by
  have hrk : radiusAt ((survivors dim mo peaks).map (fun i => peaks.getD i default)) k
      = radiusAt peaks ((survivors dim mo peaks).get ⟨k, hk⟩) := by
    unfold radiusAt
    rw [out_getD_entry dim mo peaks k hk]
  have hrl : radiusAt ((survivors dim mo peaks).map (fun i => peaks.getD i default)) l
      = radiusAt peaks ((survivors dim mo peaks).get ⟨l, hl⟩) := by
    unfold radiusAt
    rw [out_getD_entry dim mo peaks l hl]
  have hpk : posAt ((survivors dim mo peaks).map (fun i => peaks.getD i default)) k
      = posAt peaks ((survivors dim mo peaks).get ⟨k, hk⟩) := by
    unfold posAt
    rw [out_getD_entry dim mo peaks k hk]
  have hpl : posAt ((survivors dim mo peaks).map (fun i => peaks.getD i default)) l
      = posAt peaks ((survivors dim mo peaks).get ⟨l, hl⟩) := by
    unfold posAt
    rw [out_getD_entry dim mo peaks l hl]
  unfold deleteCond interEntry
  rw [hrk, hrl, hpk, hpl, survivors_get_le_iff dim mo peaks k l hk hl]

/-- C9: the pruning step returns exactly the peaks not marked for
deletion, each row unchanged and in the original relative order (the
output is a sublist of the input whose members are precisely the rows at
non-deleted indices). -/
theorem pruneStep_returns_nondeleted_in_order (dim : ℕ) (mo : ℝ)
    (peaks out : List Peak) (h : pruneStep dim mo peaks = some out) :
    out.Sublist peaks ∧
    ∀ b, b ∈ out ↔ ∃ i, ∃ hi : i < peaks.length,
      ¬ deleteFlag dim mo peaks i ∧ peaks.get ⟨i, hi⟩ = b := by
  have hout : out = (survivors dim mo peaks).map (fun i => peaks.getD i default) := by
    unfold pruneStep at h
    by_cases hdim : dim = 2 ∨ dim = 3
    · rw [if_pos hdim] at h
      exact (Option.some.inj h).symm
    · rw [if_neg hdim] at h
      exact Option.noConfusion h
  subst hout
  refine ⟨survivors_sublist dim mo peaks, ?_⟩
  intro b
  rw [List.mem_map]
  constructor
  · rintro ⟨i, hi, rfl⟩
    obtain ⟨hilt, hflag⟩ := (mem_survivors dim mo peaks i).mp hi
    exact ⟨i, hilt, hflag, (List.getD_eq_get peaks default hilt).symm⟩
  · rintro ⟨i, hilt, hflag, rfl⟩
    exact ⟨i, (mem_survivors dim mo peaks i).mpr ⟨hilt, hflag⟩,
      List.getD_eq_get peaks default hilt⟩

/-- C9 witness: on a single-peak list the output is the same unchanged
row, a sublist of the input. -/
theorem pruneStep_returns_nondeleted_in_order_witness :
    List.Sublist [Peak.mk 1 [9, 9, 9]] [Peak.mk 1 [9, 9, 9]] :=
  (pruneStep_returns_nondeleted_in_order 3 (1 / 20) [Peak.mk 1 [9, 9, 9]]
    [Peak.mk 1 [9, 9, 9]]
    (pruneStep_singleton 3 (1 / 20) (Peak.mk 1 [9, 9, 9]) (Or.inr rfl))).1

/-- C4: the pruning step is idempotent.  A row surviving the first pass
has no partner satisfying the deletion condition; in the second pass the
renumbered pairwise conditions coincide with the original ones (the data
and relative order are preserved), so no row satisfies the recomputed
deletion flag and the list is returned unchanged. -/
theorem pruneStep_idempotent (dim : ℕ) (mo : ℝ) (peaks out : List Peak)
    (h : pruneStep dim mo peaks = some out) : pruneStep dim mo out = some out := by
  have hdim : dim = 2 ∨ dim = 3 := by
    by_contra hc
    unfold pruneStep at h
    rw [if_neg hc] at h
    exact Option.noConfusion h
  have hout : out = (survivors dim mo peaks).map (fun i => peaks.getD i default) := by
    unfold pruneStep at h
    rw [if_pos hdim] at h
    exact (Option.some.inj h).symm
  subst hout
  have hlen : ((survivors dim mo peaks).map (fun i => peaks.getD i default)).length
      = (survivors dim mo peaks).length := List.length_map _ _
  have hflags : ∀ k, k < ((survivors dim mo peaks).map (fun i => peaks.getD i default)).length →
      ¬ deleteFlag dim mo ((survivors dim mo peaks).map (fun i => peaks.getD i default)) k := by
    intro k hk hdel
    obtain ⟨l, hl, hcond⟩ := hdel
    have hk2 : k < (survivors dim mo peaks).length := hlen ▸ hk
    have hl2 : l < (survivors dim mo peaks).length := hlen ▸ hl
    have hcond2 := (deleteCond_map dim mo peaks k l hk2 hl2).mp hcond
    have hmemk := List.get_mem (survivors dim mo peaks) k hk2
    have hmeml := List.get_mem (survivors dim mo peaks) l hl2
    have hkp := (mem_survivors dim mo peaks _).mp hmemk
    have hlp := (mem_survivors dim mo peaks _).mp hmeml
    exact hkp.2 ⟨(survivors dim mo peaks).get ⟨l, hl2⟩, hlp.1, hcond2⟩
  unfold pruneStep
  rw [if_pos hdim]
  have hsur : survivors dim mo ((survivors dim mo peaks).map (fun i => peaks.getD i default))
      = List.range ((survivors dim mo peaks).map (fun i => peaks.getD i default)).length := by
    unfold survivors
    apply List.filter_eq_self.mpr
    intro a ha
    exact decide_eq_true (hflags a (List.mem_range.mp ha))
  rw [hsur, map_getD_range]

/-- C4 witness: a single well-separated peak survives the first pass and
the second pass returns the same list. -/
theorem pruneStep_idempotent_witness :
    pruneStep 3 (1 / 20) [Peak.mk 1 [5, 0, 0]] = some [Peak.mk 1 [5, 0, 0]] :=
  pruneStep_idempotent 3 (1 / 20) [Peak.mk 1 [5, 0, 0]] [Peak.mk 1 [5, 0, 0]]
    (pruneStep_singleton 3 (1 / 20) (Peak.mk 1 [5, 0, 0]) (Or.inr rfl))

end Blob
